import Mathlib

/-!
Verification development for the balance-category-pipeline repository.

The Python source is shallowly embedded: pandas cell values become the
inductive `Value`, a DataFrame row becomes the structure `Row` (one field per
column the core reads), a DataFrame becomes `List Row`, Python floats become
`Rat`, and fallible code returns `Option`/`Except`.  Wall-clock readings and
generated run ids are environment inputs and are passed as explicit
parameters.  Python string operations used by the source (`strip`, `upper`,
slicing) are modelled structurally over the character list of a `String`.
-/

set_option autoImplicit false

/-- Python `str.strip()` on the character list (ASCII whitespace). -/
def trimChars (l : List Char) : List Char :=
  ((l.dropWhile Char.isWhitespace).reverse.dropWhile Char.isWhitespace).reverse

/-- Python `s.strip()`. -/
def pyStrip (s : String) : String := String.mk (trimChars s.data)

/-- Python `s.upper()`. -/
def pyUpper (s : String) : String := String.mk (s.data.map Char.toUpper)

/-- Python `s[:n]`. -/
def pySlice (n : Nat) (s : String) : String := String.mk (s.data.take n)

/-- A pandas cell value as seen by the quality/metadata core.
`na` is a missing value (`NaN`); `vstr` is a string; `vnum` is a numeric
value.  Numeric strings are represented by `vnum` (Python `float` would parse
them), so `vstr` stands for strings on which `float()` raises. -/
inductive Value where
  | na
  | vstr (s : String)
  | vnum (q : Rat)
  deriving DecidableEq, Inhabited

/-- `pd.isna` on a cell value. -/
def Value.isNA : Value → Bool
  | .na => true
  | _ => false

/-- Python `str(value)`: `str(float("nan")) = "nan"`; numbers render via
`toString` (the exact digit rendering of a number is immaterial to every
embedded use, which only tests emptiness after `strip` and equality of
renderings). -/
def Value.pyStr : Value → String
  | .na => "nan"
  | .vstr s => s
  | .vnum q => toString q

/-- Python `float(value)`: numbers convert to themselves; `float` of a
(non-numeric) string raises, which is modelled as `none`. -/
def Value.pyFloat? : Value → Option Rat
  | .vnum q => some q
  | _ => none

/-- One DataFrame row, restricted to the columns the embedded core reads.
A field holds `none` when the column is absent from the frame (so that
`row.get(name)` yields Python `None`) and `some .na` when the column exists
but the cell is `NaN`.  `category`, `subcategory`, `confidence`,
`description` stand for the `CategoryAnnotation`, `SubCategoryAnnotation`,
`Confidence` and `TransactionDescription` columns. -/
structure Row where
  category : Option Value := none
  subcategory : Option Value := none
  confidence : Option Value := none
  description : Option Value := none
  deriving DecidableEq, Inhabited

/-- `pd.isna(row.get(col))`: both a missing column (Python `None`) and a
`NaN` cell are na. -/
def cellIsNA : Option Value → Bool
  | none => true
  | some v => v.isNA

/-- `str(row.get(col, ""))`: a missing column falls back to `""`. -/
def cellStr : Option Value → String
  | none => ""
  | some v => v.pyStr

/-- Quality metrics value object (src/src/analyzer/pipeline/quality.py,
`QualityMetrics`). -/
structure QualityMetrics where
  completeness : Rat
  confidence : Rat
  consistency : Rat
  overall_quality_index : Rat
  deriving DecidableEq

/-! ### CompletenessCalculator (quality.py) -/

/-- One required field of `_calculate_row_completeness`:
`not pd.isna(value) and str(value).strip()`. -/
def fieldPresent (c : Option Value) : Bool :=
  match c with
  | none => false
  | some v => !v.isNA && (pyStrip v.pyStr ≠ "")

/-- `CompletenessCalculator._calculate_row_completeness`: fraction of the
required fields `CategoryAnnotation`, `SubCategoryAnnotation`, `Confidence`
present and non-blank in the row. -/
def CompletenessCalculator.rowScore (r : Row) : Rat :=
  (((if fieldPresent r.category then 1 else 0) +
    (if fieldPresent r.subcategory then 1 else 0) +
    (if fieldPresent r.confidence then 1 else 0) : Nat) : Rat) / 3

/-- `CompletenessCalculator.calculate`: mean of the row scores
(`_apply_completeness_weighting` is the plain average); `0.0` for an empty
frame. -/
def CompletenessCalculator.calculate (df : List Row) : Rat :=
  if df = [] then 0
  else
    let scores := df.map CompletenessCalculator.rowScore
    if scores = [] then 0 else scores.sum / (scores.length : Rat)

/-! ### ConfidenceCalculator (quality.py) -/

/-- `ConfidenceCalculator._calculate_row_confidence`: `0` for a missing,
non-numeric or zero confidence, otherwise the value clamped into `[0, 1]`. -/
def ConfidenceCalculator.rowConfidence (r : Row) : Rat :=
  match r.confidence with
  | none => 0
  | some v =>
    if v.isNA then 0
    else
      match v.pyFloat? with
      | none => 0
      | some q => if q = 0 then 0 else max 0 (min 1 q)

/-- The weight branch of `_apply_confidence_weighting`. -/
def ConfidenceCalculator.weightOf (score : Rat) : Rat :=
  if score < 7/10 then 3 else if score ≤ 9/10 then 2 else 1

/-- `ConfidenceCalculator._apply_confidence_weighting`: accumulates
`weighted_sum` and `total_weight` over the scores, then divides. -/
def ConfidenceCalculator.applyWeighting (scores : List Rat) : Rat :=
  if scores = [] then 0
  else
    let acc := scores.foldl
      (fun p s => (p.1 + s * ConfidenceCalculator.weightOf s,
                   p.2 + ConfidenceCalculator.weightOf s)) (0, 0)
    if 0 < acc.2 then acc.1 / acc.2 else 0

/-- `ConfidenceCalculator.calculate`: keeps only the strictly positive row
scores and applies the weighted average; `0.0` for an empty frame or when no
valid score remains. -/
def ConfidenceCalculator.calculate (df : List Row) : Rat :=
  if df = [] then 0
  else
    let valid := (df.map ConfidenceCalculator.rowConfidence).filter (fun s => 0 < s)
    if valid = [] then 0 else ConfidenceCalculator.applyWeighting valid

/-! ### ConsistencyCalculator (quality.py) -/

/-- The grouping key of `_group_by_description_prefix`:
`str(row.get("TransactionDescription", "")).strip()`, skip when empty, else
the first 12 characters upper-cased. -/
def descKey? (r : Row) : Option String :=
  let desc := pyStrip (cellStr r.description)
  if desc = "" then none else some (pyUpper (pySlice 12 desc))

/-- `groups[prefix].append(row)` on the insertion-ordered dict, as an
association list. -/
def addToGroup (gs : List (String × List Row)) (p : String) (r : Row) :
    List (String × List Row) :=
  match gs with
  | [] => [(p, [r])]
  | (q, rs) :: rest =>
    if q = p then (q, rs ++ [r]) :: rest else (q, rs) :: addToGroup rest p r

/-- One iteration of the grouping loop of `_group_by_description_prefix`. -/
def groupStep (gs : List (String × List Row)) (r : Row) :
    List (String × List Row) :=
  match descKey? r with
  | none => gs
  | some p => addToGroup gs p r

/-- `_group_by_description_prefix`: build the dict, then keep only the
groups with more than one member (`if len(rows) > 1`). -/
def ConsistencyCalculator.groups (df : List Row) : List (String × List Row) :=
  (df.foldl groupStep []).filter (fun g => 1 < g.2.length)

/-- The `(cat, subcat)` pair a row contributes to the `subcategories` set in
`_is_group_consistent` (only when both strip to non-empty strings). -/
def catSubPair? (r : Row) : Option (String × String) :=
  let cat := pyStrip (cellStr r.category)
  let subcat := pyStrip (cellStr r.subcategory)
  if cat ≠ "" ∧ subcat ≠ "" then some (cat, subcat) else none

/-- `_is_group_consistent`: groups of fewer than two rows are trivially
consistent; otherwise there must be exactly one distinct contributed
`(category, subcategory)` pair (`len(subcategories) == 1`). -/
def ConsistencyCalculator.isGroupConsistent (g : List Row) : Bool :=
  if g.length < 2 then true
  else (g.filterMap catSubPair?).dedup.length = 1

/-- `ConsistencyCalculator.calculate`. -/
def ConsistencyCalculator.calculate (df : List Row) : Rat :=
  if df = [] then 0
  else
    let gs := ConsistencyCalculator.groups df
    if gs = [] then 0
    else
      let consistent := gs.countP (fun g => ConsistencyCalculator.isGroupConsistent g.2)
      if 0 < gs.length then (consistent : Rat) / (gs.length : Rat) else 0

/-! ### DefaultQualityCalculator (quality.py) -/

/-- The composite calculator's configuration (its three weights; the three
dimension calculators are the defaults above).  In the source the dimension
calculators are assigned before the weight validation, but a `ValueError`
raised in `__init__` discards the partially initialised object, so
construction is modelled atomically. -/
structure DefaultQualityCalculator where
  completeness_weight : Rat
  confidence_weight : Rat
  consistency_weight : Rat
  deriving DecidableEq

/-- `DefaultQualityCalculator.__init__`: raises unless
`abs(total_weight - 1.0) <= 0.001`. -/
def DefaultQualityCalculator.init
    (completeness_weight confidence_weight consistency_weight : Rat) :
    Except String DefaultQualityCalculator :=
  let total_weight := completeness_weight + confidence_weight + consistency_weight
  if 1/1000 < |total_weight - 1| then
    .error "Quality dimension weights must sum to 1.0"
  else
    .ok ⟨completeness_weight, confidence_weight, consistency_weight⟩

/-- `DefaultQualityCalculator.calculate` with the default dimension
calculators. -/
def DefaultQualityCalculator.calculate (c : DefaultQualityCalculator)
    (df : List Row) : QualityMetrics :=
  if df = [] then ⟨0, 0, 0, 0⟩
  else
    let completeness := CompletenessCalculator.calculate df
    let confidence := ConfidenceCalculator.calculate df
    let consistency := ConsistencyCalculator.calculate df
    ⟨completeness, confidence, consistency,
     completeness * c.completeness_weight + confidence * c.confidence_weight +
       consistency * c.consistency_weight⟩

/-! ### SimpleQualityCalculator (quality.py) -/

/-- `SimpleQualityCalculator._calculate_row_confidence_score`.  `none`
models the uncaught `ValueError` of `float(...)` on a non-numeric string. -/
def SimpleQualityCalculator.rowScore? (r : Row) : Option Rat :=
  if cellIsNA r.category || cellIsNA r.subcategory || cellIsNA r.confidence then
    some 0
  else
    let category := pyStrip (cellStr r.category)
    let subcategory := pyStrip (cellStr r.subcategory)
    if category = "" ∨ subcategory = "" then some 0
    else
      match (r.confidence.getD .na).pyFloat? with
      | none => none
      | some confidence => if confidence = 0 then some 0 else some confidence

/-- The row loop of `SimpleQualityCalculator.calculate` collecting
`row_scores` (an exception anywhere aborts the call). -/
def SimpleQualityCalculator.rowScores : List Row → Option (List Rat)
  | [] => some []
  | r :: rest =>
    match SimpleQualityCalculator.rowScore? r, SimpleQualityCalculator.rowScores rest with
    | some s, some ss => some (s :: ss)
    | _, _ => none

/-- `SimpleQualityCalculator._apply_confidence_weighting`: plain average. -/
def SimpleQualityCalculator.applyWeighting (scores : List Rat) : Rat :=
  if scores = [] then 0 else scores.sum / (scores.length : Rat)

/-- `SimpleQualityCalculator.calculate`. -/
def SimpleQualityCalculator.calculate (df : List Row) : Option QualityMetrics :=
  if df = [] then some ⟨0, 0, 0, 0⟩
  else
    match SimpleQualityCalculator.rowScores df with
    | none => none
    | some scores =>
      if scores = [] then some ⟨0, 0, 0, 0⟩
      else
        let quality_index := SimpleQualityCalculator.applyWeighting scores
        some ⟨0, quality_index, 0, quality_index⟩

/-! ### Telemetry model (src/src/analyzer/pipeline/metadata.py)

Timestamps are microseconds since the epoch (`datetime` has microsecond
resolution); durations are seconds as rationals.  `isoformat` /
`fromisoformat` round-trip a `datetime` losslessly and are modelled as the
identity on the timestamp. -/

/-- `StepMetadata` value object. -/
structure StepMetadata where
  name : String
  input_rows : Nat
  output_rows : Nat
  duration : Option Rat
  start_time : Option Int
  end_time : Option Int
  parameters : List (String × String)
  deriving DecidableEq, Inhabited

/-- `StepMetadata.__init__`: stores the fields, defaults `parameters` to the
empty map, and derives `duration` from the timestamps when it was not
supplied. -/
def StepMetadata.init (name : String) (input_rows output_rows : Nat)
    (duration : Option Rat) (start_time end_time : Option Int)
    (parameters : Option (List (String × String))) : StepMetadata :=
  { name, input_rows, output_rows, start_time, end_time,
    parameters := parameters.getD [],
    duration :=
      match duration with
      | some d => some d
      | none =>
        match start_time, end_time with
        | some s, some e => some (((e - s : Int) : Rat) / 1000000)
        | _, _ => none }

/-- The dictionary produced by `StepMetadata.to_dict` (and stored inside the
run's JSON document). -/
structure StepDict where
  name : String
  input_rows : Nat
  output_rows : Nat
  duration : Option Rat
  start_time : Option Int
  end_time : Option Int
  parameters : List (String × String)
  deriving DecidableEq, Inhabited

/-- `StepMetadata.to_dict`. -/
def StepMetadata.to_dict (s : StepMetadata) : StepDict :=
  ⟨s.name, s.input_rows, s.output_rows, s.duration, s.start_time, s.end_time,
   s.parameters⟩

/-- `PipelineMetadata` (the RunRecord).  `run_id` generation
(`uuid.uuid4()`) is an environment input, passed to `init` explicitly. -/
structure PipelineMetadata where
  pipeline_name : String
  start_time : Int
  end_time : Int
  run_id : String
  steps : List StepMetadata
  quality_index : Option Value
  context_files : Option (List (String × String))
  input_rows : Option Nat
  output_rows : Option Nat
  deriving DecidableEq, Inhabited

/-- `PipelineMetadata.__init__`. -/
def PipelineMetadata.init (pipeline_name : String) (start_time end_time : Int)
    (quality_index : Option Value)
    (context_files : Option (List (String × String)))
    (freshRunId : String) : PipelineMetadata :=
  ⟨pipeline_name, start_time, end_time, freshRunId, [], quality_index,
   context_files, none, none⟩

/-- `PipelineMetadata.total_duration` (derived, in seconds). -/
def PipelineMetadata.total_duration (p : PipelineMetadata) : Rat :=
  ((p.end_time - p.start_time : Int) : Rat) / 1000000

/-- `PipelineMetadata.add_step`: appends the step, sets `input_rows` when
this is the first step (the source's `not self.steps or len(self.steps) == 1`
is evaluated after the append, so it holds exactly for the first step), and
always updates `output_rows`. -/
def PipelineMetadata.add_step (p : PipelineMetadata) (step : StepMetadata) :
    PipelineMetadata :=
  let steps := p.steps ++ [step]
  { p with
    steps := steps
    input_rows := if steps.length = 1 then some step.input_rows else p.input_rows
    output_rows := some step.output_rows }

/-- The dictionary produced by `PipelineMetadata.to_dict` — the JSON document
one run is persisted as. -/
structure RunDict where
  pipeline_name : String
  run_id : String
  start_time : Int
  end_time : Int
  total_duration : Rat
  input_rows : Option Nat
  output_rows : Option Nat
  quality_index : Option Value
  context_files : Option (List (String × String))
  steps : List StepDict
  deriving DecidableEq, Inhabited

/-- `PipelineMetadata.to_dict`. -/
def PipelineMetadata.to_dict (p : PipelineMetadata) : RunDict :=
  ⟨p.pipeline_name, p.run_id, p.start_time, p.end_time, p.total_duration,
   p.input_rows, p.output_rows, p.quality_index, p.context_files,
   p.steps.map StepMetadata.to_dict⟩

/-- `MetadataCollector` (the Recorder): owns zero-or-one RunRecord. -/
structure MetadataCollector where
  pipeline_name : String
  pipeline_metadata : Option PipelineMetadata
  deriving DecidableEq, Inhabited

/-- `MetadataCollector.start_pipeline`: creates the RunRecord only when none
exists yet (`datetime.now()` and the fresh uuid are environment inputs). -/
def MetadataCollector.start_pipeline (c : MetadataCollector) (now : Int)
    (freshRunId : String) : MetadataCollector :=
  match c.pipeline_metadata with
  | none =>
    let fresh := PipelineMetadata.init c.pipeline_name now now none none freshRunId
    { c with pipeline_metadata := some fresh }
  | some _ => c

/-- `MetadataCollector.end_pipeline`: sets `end_time` when a RunRecord
exists, otherwise does nothing. -/
def MetadataCollector.end_pipeline (c : MetadataCollector) (now : Int) :
    MetadataCollector :=
  match c.pipeline_metadata with
  | none => c
  | some m => { c with pipeline_metadata := some { m with end_time := now } }

/-- `MetadataCollector.track_step`: delegates to `add_step` when a RunRecord
exists, otherwise does nothing. -/
def MetadataCollector.track_step (c : MetadataCollector) (step : StepMetadata) :
    MetadataCollector :=
  match c.pipeline_metadata with
  | none => c
  | some m => { c with pipeline_metadata := some (m.add_step step) }

/-- `MetadataCollector.get_pipeline_metadata`. -/
def MetadataCollector.get_pipeline_metadata (c : MetadataCollector) :
    Option PipelineMetadata :=
  c.pipeline_metadata

/-! ### MetadataRepository (metadata.py)

The JSON file written by `save` holds exactly the `to_dict` image (JSON
round-trips every field of our universe losslessly, timestamps as ISO-8601
strings), so `save` is modelled as producing the `RunDict` keyed by the
`run_id`, and `load` as the reconstruction the source performs on the parsed
document. -/

/-- `MetadataRepository.save`: returns the `run_id` and the stored
document. -/
def MetadataRepository.save (p : PipelineMetadata) : String × RunDict :=
  (p.run_id, p.to_dict)

/-- The step reconstruction inside `MetadataRepository.load`. -/
def MetadataRepository.loadStep (sd : StepDict) : StepMetadata :=
  StepMetadata.init sd.name sd.input_rows sd.output_rows sd.duration
    sd.start_time sd.end_time (some sd.parameters)

/-- `MetadataRepository.load` on a present file: rebuilds the
`PipelineMetadata` from the parsed document.  The constructor call passes
`quality_index` but not `context_files`; `run_id`, `input_rows` and
`output_rows` are overwritten from the document; every step is re-added
through `add_step`. -/
def MetadataRepository.load (d : RunDict) : PipelineMetadata :=
  let p := PipelineMetadata.init d.pipeline_name d.start_time d.end_time
    d.quality_index none d.run_id
  let p := { p with input_rows := d.input_rows, output_rows := d.output_rows }
  d.steps.foldl (fun acc sd => acc.add_step (MetadataRepository.loadStep sd)) p

/-! ### Pipeline orchestrator (src/src/analyzer/pipeline/pipeline_commands.py)

`DataPipeline.run` threads a working value through `command.process`.  The
working value is `Option (List Row)`: `some df` is a DataFrame, `none` is
any non-DataFrame Python value (`None`, or a `CommandResult` object — the
source never unwraps it), matching `len(df) if isinstance(df, pd.DataFrame)
else 0`.  Wall-clock readings (`time.time`, `datetime.now`) and the fresh
run id are supplied through `RunEnv`; the optional repository argument only
persists the final metadata and changes neither the returned value nor the
collector, so it is not threaded. -/

/-- A pipeline command: its class name plus its `process` method. -/
structure Command where
  name : String
  process : Option (List Row) → Option (List Row)

/-- `len(df) if isinstance(df, pd.DataFrame) else 0`. -/
def rowCount : Option (List Row) → Nat
  | none => 0
  | some df => df.length

/-- Environment inputs of one `run` call. -/
structure RunEnv where
  freshRunId : String
  startNow : Int
  endNow : Int
  stepElapsed : Nat → Rat

/-- `DataPipeline`: the command list plus the collector. -/
structure DataPipeline where
  commands : List Command
  collector : MetadataCollector

/-- `DataPipeline.__init__`: when no collector is supplied, installs a fresh
`MetadataCollector(pipeline_name="DataPipeline")`. -/
def DataPipeline.init (commands : List Command)
    (collector : Option MetadataCollector) : DataPipeline :=
  { commands, collector := collector.getD ⟨"DataPipeline", none⟩ }

/-- The `for command in self.commands` loop of `DataPipeline.run`: measures
input/output row counts, invokes the command, and tracks one
`StepMetadata(name, input_rows, output_rows, duration=elapsed,
parameters={})` per command. -/
def DataPipeline.runSteps (env : RunEnv) :
    List Command → Nat → Option (List Row) → MetadataCollector →
    Option (List Row) × MetadataCollector
  | [], _, df, c => (df, c)
  | cmd :: rest, i, df, c =>
    let input_rows := rowCount df
    let df2 := cmd.process df
    let output_rows := rowCount df2
    let step := StepMetadata.init cmd.name input_rows output_rows
      (some (env.stepElapsed i)) none none (some [])
    DataPipeline.runSteps env rest (i + 1) df2 (c.track_step step)

/-- `DataPipeline.run`: start collection, run every command, end
collection; returns the final working value and the collector. -/
def DataPipeline.run (p : DataPipeline) (initial_df : Option (List Row))
    (env : RunEnv) : Option (List Row) × MetadataCollector :=
  let c := p.collector.start_pipeline env.startNow env.freshRunId
  let r := DataPipeline.runSteps env p.commands 0 initial_df c
  (r.1, r.2.end_pipeline env.endNow)

/-! ### Specification-side definitions

Definitions named `spec...` transcribe sentences of the specification (or of
a claim) rather than the source; each is compared with the corresponding
embedded source function by a theorem. -/

/-- Key insertion in first-occurrence order (Python dict key order). -/
def insertKey (ks : List String) (p : String) : List String :=
  if p ∈ ks then ks else ks ++ [p]

/-- The distinct description-prefix keys of a frame, in first-occurrence
order. -/
def specKeys (df : List Row) : List String :=
  (df.filterMap descKey?).foldl insertKey []

/-- Spec reading of "group rows by the case-folded first-N-characters prefix
of the description": the rows of `df` whose key is `p`. -/
def specGroup (df : List Row) (p : String) : List Row :=
  df.filter (fun r => descKey? r = some p)

/-- The consistency score exactly as the claim states it: every group
(including groups of size 1) appears in numerator and denominator. -/
def specConsistencyClaim (df : List Row) : Rat :=
  let ks := specKeys df
  if ks = [] then 0
  else
    ((ks.countP fun p => ConsistencyCalculator.isGroupConsistent (specGroup df p)) : Rat) /
      (ks.length : Rat)

/-- The amended consistency score: only groups with at least two rows count,
in numerator and denominator alike; `0.0` when no such group exists. -/
def specConsistencyAmended (df : List Row) : Rat :=
  let ks := (specKeys df).filter (fun p => 1 < (specGroup df p).length)
  if ks = [] then 0
  else
    ((ks.countP fun p => ConsistencyCalculator.isGroupConsistent (specGroup df p)) : Rat) /
      (ks.length : Rat)

/-- Amended spec reading of the confidence dimension's row selection: the
confidence value must be present, numeric and strictly positive; its
contribution is the value clamped into `[0, 1]`. -/
def specConfValue? (r : Row) : Option Rat :=
  match r.confidence with
  | none => none
  | some v =>
    if v.isNA then none
    else
      match v.pyFloat? with
      | none => none
      | some q => if 0 < q then some (min 1 q) else none

/-- The confidence score as a weighted average per the amended claim. -/
def specConfidenceAmended (df : List Row) : Rat :=
  let confs := df.filterMap specConfValue?
  if confs = [] then 0
  else
    (confs.map fun q => q * ConfidenceCalculator.weightOf q).sum /
      (confs.map ConfidenceCalculator.weightOf).sum

/-- The confidence score exactly as the claim states it: every present,
non-zero confidence participates with its raw value. -/
def specConfidenceClaim (df : List Row) : Rat :=
  let confs := df.filterMap fun r =>
    match r.confidence with
    | none => none
    | some v =>
      if v.isNA then none
      else
        match v.pyFloat? with
        | none => none
        | some q => if q ≠ 0 then some q else none
  if confs = [] then 0
  else
    (confs.map fun q => q * ConfidenceCalculator.weightOf q).sum /
      (confs.map ConfidenceCalculator.weightOf).sum

/-- Spec reading of the simple strategy's row score: the raw confidence when
category, subcategory and confidence are all present (non-blank) and the
confidence is non-zero, else `0.0`. -/
def specSimpleRowScore (r : Row) : Rat :=
  if fieldPresent r.category && fieldPresent r.subcategory && !cellIsNA r.confidence then
    match (r.confidence.getD .na).pyFloat? with
    | some q => if q = 0 then 0 else q
    | none => 0
  else 0

/-- Spec reading of the simple strategy's overall index: the unweighted mean
of the row scores (`0.0` on an empty frame). -/
def specSimpleIndex (df : List Row) : Rat :=
  if df = [] then 0 else (df.map specSimpleRowScore).sum / (df.length : Rat)

/-! ### Concrete inputs used by counterexamples and witnesses -/

/-- A fixed run environment (times and ids are irrelevant to the claims). -/
def env0 : RunEnv := ⟨"run-0", 0, 0, fun _ => 0⟩

/-- A command modelling `FailCommand`: its `process` returns
`CommandResult(return_code=-1, data=None, error=...)`, which is not a
DataFrame. -/
def failCommand : Command := ⟨"FailCommand", fun _ => none⟩

/-- A command placed after the failing one; it returns a two-row frame. -/
def probeCommand : Command := ⟨"ProbeCommand", fun _ => some [{}, {}]⟩

/-! ## C10 — Recorder operations before `start_pipeline` -/

/-- C10: on a collector whose run has not been started
(`pipeline_metadata is None`), `track_step` and `end_pipeline` are silent
no-ops — no step is stored, no RunRecord is created, no error is raised
(the operations are total) — and `get_pipeline_metadata` returns `None`. -/
theorem collector_unstarted_noop (nm : String) (step : StepMetadata) (now : Int) :
    (MetadataCollector.mk nm none).track_step step = MetadataCollector.mk nm none ∧
    (MetadataCollector.mk nm none).end_pipeline now = MetadataCollector.mk nm none ∧
    (MetadataCollector.mk nm none).get_pipeline_metadata = none :=
  ⟨rfl, rfl, rfl⟩

/-- C10 witness: the no-op behaviour at a concrete collector, step and
time. -/
theorem collector_unstarted_noop_witness :
    (MetadataCollector.mk "p" none).track_step ⟨"s", 1, 2, none, none, none, []⟩ =
      MetadataCollector.mk "p" none ∧
    (MetadataCollector.mk "p" none).end_pipeline 5 = MetadataCollector.mk "p" none ∧
    (MetadataCollector.mk "p" none).get_pipeline_metadata = none :=
  collector_unstarted_noop "p" ⟨"s", 1, 2, none, none, none, []⟩ 5

/-! ## C5 — weight validation of the composite calculator -/

/-- C5 counterexample: the weights `0.3005 / 0.5 / 0.2` do not sum exactly
to `1.0`, yet construction succeeds — the source only rejects total weights
farther than `0.001` from `1.0`. -/
theorem weight_validation_cex :
    DefaultQualityCalculator.init (3005/10000) (5/10) (2/10) =
      Except.ok ⟨3005/10000, 5/10, 2/10⟩ ∧
    (3005/10000 : Rat) + 5/10 + 2/10 ≠ 1 := by
  constructor
  · have h : ¬ ((1/1000 : Rat) < |(3005/10000 : Rat) + 5/10 + 2/10 - 1|) := by
      rw [show ((3005/10000 : Rat) + 5/10 + 2/10 - 1) = 5/10000 by norm_num]
      rw [abs_of_nonneg (by norm_num)]
      norm_num
    unfold DefaultQualityCalculator.init
    rw [if_neg h]
  · norm_num

/-- C5 amended: construction fails iff the three weights sum to a total
farther than `0.001` from `1.0`; on success the calculator carries exactly
the supplied weights (no partially constructed calculator is observable,
construction being atomic in the model since the raised `ValueError`
discards the partial object). -/
theorem weight_validation (w1 w2 w3 : Rat) :
    ((∃ e, DefaultQualityCalculator.init w1 w2 w3 = Except.error e) ↔
      1/1000 < |w1 + w2 + w3 - 1|) ∧
    (∀ c, DefaultQualityCalculator.init w1 w2 w3 = Except.ok c → c = ⟨w1, w2, w3⟩) := by
  unfold DefaultQualityCalculator.init
  by_cases h : (1/1000 : Rat) < |w1 + w2 + w3 - 1|
  · rw [if_pos h]
    refine ⟨⟨fun _ => h, fun _ => ⟨_, rfl⟩⟩, ?_⟩
    intro c hc
    exact absurd hc (by simp)
  · rw [if_neg h]
    refine ⟨⟨?_, fun hlt => absurd hlt h⟩, ?_⟩
    · rintro ⟨e, he⟩
      exact absurd he (by simp)
    · intro c hc
      injection hc with h2
      rw [h2]

/-- C5 witness: at the default weights `0.3 / 0.5 / 0.2` construction
succeeds and yields exactly those weights. -/
theorem weight_validation_witness :
    DefaultQualityCalculator.init (3/10) (5/10) (2/10) = Except.ok ⟨3/10, 5/10, 2/10⟩ := by
  have h := (weight_validation (3/10) (5/10) (2/10)).1
  have h2 : ¬ (1/1000 : Rat) < |(3/10 : Rat) + 5/10 + 2/10 - 1| := by
    rw [show ((3/10 : Rat) + 5/10 + 2/10 - 1) = 0 by norm_num]
    norm_num
  rcases hv : DefaultQualityCalculator.init (3/10) (5/10) (2/10) with e | c
  · exact absurd (h.mp ⟨e, hv⟩) h2
  · have := (weight_validation (3/10) (5/10) (2/10)).2 c hv
    rw [this]

/-! ## C1 — the orchestrator and negative status codes -/

/-- C1 (the claim is right, the code is wrong): the embedded
`DataPipeline.run` never inspects a returned `CommandResult`; at the failing
input (a first command returning `CommandResult(return_code=-1, data=None)`
followed by a second command) the run does not halt — the second command
executes and its step is tracked — and the run's result is whatever the last
command returned rather than an empty DataFrame.  With the failing command
alone, the run returns the `CommandResult` object itself (not an empty
DataFrame).  The repository's own test
`test_data_pipeline_saves_failure_metadata` expects a halt with an empty
DataFrame here. -/
theorem run_ignores_negative_status :
    ((DataPipeline.init [failCommand] none).run (some [{}]) env0).1 ≠ some [] ∧
    ((DataPipeline.init [failCommand, probeCommand] none).run (some [{}]) env0).1 =
      some [{}, {}] ∧
    (((DataPipeline.init [failCommand, probeCommand] none).run (some [{}])
        env0).2.pipeline_metadata.map fun m => m.steps.map StepMetadata.name) =
      some ["FailCommand", "ProbeCommand"] := by
  refine ⟨?_, ?_, ?_⟩ <;> decide

/-! ## C8 / C9 — orchestrator telemetry -/

/-- Proof device: the command loop of `run` with the collector wrapper
removed (valid once a RunRecord exists, which `run` guarantees by calling
`start_pipeline` first). -/
def runStepsOnMeta (env : RunEnv) :
    List Command → Nat → Option (List Row) → PipelineMetadata →
    Option (List Row) × PipelineMetadata
  | [], _, df, m => (df, m)
  | cmd :: rest, i, df, m =>
    let step := StepMetadata.init cmd.name (rowCount df) (rowCount (cmd.process df))
      (some (env.stepElapsed i)) none none (some [])
    runStepsOnMeta env rest (i + 1) (cmd.process df) (m.add_step step)

theorem runSteps_eq_onMeta (env : RunEnv) (cmds : List Command) :
    ∀ (i : Nat) (df : Option (List Row)) (nm : String) (m : PipelineMetadata),
    DataPipeline.runSteps env cmds i df ⟨nm, some m⟩ =
      ((runStepsOnMeta env cmds i df m).1,
        ⟨nm, some (runStepsOnMeta env cmds i df m).2⟩) := by
  induction cmds with
  | nil => intro i df nm m; rfl
  | cons cmd rest ih =>
    intro i df nm m
    simp only [DataPipeline.runSteps, runStepsOnMeta]
    exact ih (i + 1) (cmd.process df) nm (m.add_step _)

theorem runStepsOnMeta_names (env : RunEnv) (cmds : List Command) :
    ∀ (i : Nat) (df : Option (List Row)) (m : PipelineMetadata),
    (runStepsOnMeta env cmds i df m).2.steps.map StepMetadata.name =
      m.steps.map StepMetadata.name ++ cmds.map Command.name := by
  induction cmds with
  | nil => intro i df m; simp [runStepsOnMeta]
  | cons cmd rest ih =>
    intro i df m
    simp only [runStepsOnMeta]
    rw [ih]
    simp [PipelineMetadata.add_step, StepMetadata.init]

theorem runStepsOnMeta_output (env : RunEnv) (cmds : List Command)
    (hne : cmds ≠ []) :
    ∀ (i : Nat) (df : Option (List Row)) (m : PipelineMetadata),
    ∃ s, (runStepsOnMeta env cmds i df m).2.steps.getLast? = some s ∧
      (runStepsOnMeta env cmds i df m).2.output_rows = some s.output_rows ∧
      s.output_rows = rowCount (runStepsOnMeta env cmds i df m).1 := by
  induction cmds with
  | nil => exact absurd rfl hne
  | cons cmd rest ih =>
    intro i df m
    rcases eq_or_ne rest [] with hrest | hrest
    · subst hrest
      refine ⟨StepMetadata.init cmd.name (rowCount df) (rowCount (cmd.process df))
        (some (env.stepElapsed i)) none none (some []), ?_, ?_, ?_⟩
      · simp [runStepsOnMeta, PipelineMetadata.add_step, List.getLast?_concat]
      · simp [runStepsOnMeta, PipelineMetadata.add_step]
      · simp [runStepsOnMeta, StepMetadata.init]
    · simp only [runStepsOnMeta]
      exact ih hrest (i + 1) (cmd.process df) (m.add_step _)

/-- C8 counterexample: a run over an empty command list leaves
`output_rows` unset (`None`) while returning the untouched initial
dataset, whose row count is `1` — so `output_row_count` does not equal the
row count of the returned dataset for this successful run. -/
theorem telemetry_invariant_cex :
    (((DataPipeline.init [] none).run (some [{}]) env0).2.pipeline_metadata.map
      fun m => m.output_rows) = some none ∧
    rowCount ((DataPipeline.init [] none).run (some [{}]) env0).1 = 1 := by
  refine ⟨?_, ?_⟩ <;> decide

/-- C8 amended: after a run of the orchestrator (with its own fresh
recorder) over at least one command, the RunRecord's steps list records the
executed commands in order, its `output_rows` equals the last recorded
step's `output_rows`, and that value is the row count of the value the run
returns. -/
theorem telemetry_invariant (cmds : List Command) (initial_df : Option (List Row))
    (env : RunEnv) (hne : cmds ≠ []) :
    ∃ m, ((DataPipeline.init cmds none).run initial_df env).2.pipeline_metadata = some m ∧
      m.steps.map StepMetadata.name = cmds.map Command.name ∧
      (∃ s, m.steps.getLast? = some s ∧ m.output_rows = some s.output_rows) ∧
      m.output_rows =
        some (rowCount ((DataPipeline.init cmds none).run initial_df env).1) := by
  have hrun :
      (DataPipeline.init cmds none).run initial_df env =
        ((runStepsOnMeta env cmds 0 initial_df
            (PipelineMetadata.init "DataPipeline" env.startNow env.startNow none none
              env.freshRunId)).1,
          (MetadataCollector.mk "DataPipeline"
            (some (runStepsOnMeta env cmds 0 initial_df
              (PipelineMetadata.init "DataPipeline" env.startNow env.startNow none none
                env.freshRunId)).2)).end_pipeline env.endNow) := by
    have h0 : (DataPipeline.init cmds none).run initial_df env =
        ((DataPipeline.runSteps env cmds 0 initial_df
            ⟨"DataPipeline", some (PipelineMetadata.init "DataPipeline" env.startNow
              env.startNow none none env.freshRunId)⟩).1,
          (DataPipeline.runSteps env cmds 0 initial_df
            ⟨"DataPipeline", some (PipelineMetadata.init "DataPipeline" env.startNow
              env.startNow none none env.freshRunId)⟩).2.end_pipeline env.endNow) := rfl
    rw [h0, runSteps_eq_onMeta]
  obtain ⟨s, hlast, hout, hcount⟩ :=
    runStepsOnMeta_output env cmds hne 0 initial_df
      (PipelineMetadata.init "DataPipeline" env.startNow env.startNow none none
        env.freshRunId)
  refine ⟨_, by rw [hrun]; rfl, ?_, ⟨s, ?_, ?_⟩, ?_⟩
  · have := runStepsOnMeta_names env cmds 0 initial_df
      (PipelineMetadata.init "DataPipeline" env.startNow env.startNow none none
        env.freshRunId)
    simpa [PipelineMetadata.init] using this
  · exact hlast
  · exact hout
  · rw [hrun, hout, hcount]

/-- C8 witness: the amended invariant at a one-command pipeline. -/
theorem telemetry_invariant_witness :
    ∃ m, ((DataPipeline.init [probeCommand] none).run (some [{}])
        env0).2.pipeline_metadata = some m ∧
      m.steps.map StepMetadata.name = [probeCommand].map Command.name ∧
      (∃ s, m.steps.getLast? = some s ∧ m.output_rows = some s.output_rows) ∧
      m.output_rows =
        some (rowCount ((DataPipeline.init [probeCommand] none).run (some [{}]) env0).1) :=
  telemetry_invariant [probeCommand] (some [{}]) env0 (by simp)

/-- C9: the run tracks exactly one StepRecord per executed command — the
steps list of the RunRecord after a run over `n` commands with a fresh
recorder has length `n` (every command executes in this orchestrator) —
including when the caller supplies no recorder, since `__init__` installs
its own fresh collector. -/
theorem one_step_per_command (cmds : List Command) (initial_df : Option (List Row))
    (env : RunEnv) (col : Option MetadataCollector)
    (hfresh : ∀ c, col = some c → c.pipeline_metadata = none) :
    (((DataPipeline.init cmds col).run initial_df env).2.pipeline_metadata.map
      fun m => m.steps.length) = some cmds.length := by
  obtain ⟨nm, hcol⟩ : ∃ nm, (DataPipeline.init cmds col).collector = ⟨nm, none⟩ := by
    cases col with
    | none => exact ⟨"DataPipeline", rfl⟩
    | some c =>
      refine ⟨c.pipeline_name, ?_⟩
      have := hfresh c rfl
      cases c
      simp_all [DataPipeline.init]
  have h0 : (DataPipeline.init cmds col).run initial_df env =
      ((DataPipeline.runSteps env cmds 0 initial_df
          ⟨nm, some (PipelineMetadata.init nm env.startNow env.startNow none none
            env.freshRunId)⟩).1,
        (DataPipeline.runSteps env cmds 0 initial_df
          ⟨nm, some (PipelineMetadata.init nm env.startNow env.startNow none none
            env.freshRunId)⟩).2.end_pipeline env.endNow) := by
    unfold DataPipeline.run
    rw [hcol]
    rfl
  rw [h0, runSteps_eq_onMeta]
  have hnames := runStepsOnMeta_names env cmds 0 initial_df
    (PipelineMetadata.init nm env.startNow env.startNow none none env.freshRunId)
  have hlen : (runStepsOnMeta env cmds 0 initial_df
      (PipelineMetadata.init nm env.startNow env.startNow none none
        env.freshRunId)).2.steps.length = cmds.length := by
    have := congrArg List.length hnames
    simpa [PipelineMetadata.init] using this
  simp [MetadataCollector.end_pipeline, hlen]

/-- C9 witness: a two-command pipeline constructed without a recorder
tracks exactly two steps. -/
theorem one_step_per_command_witness :
    (((DataPipeline.init [failCommand, probeCommand] none).run (some [{}])
        env0).2.pipeline_metadata.map fun m => m.steps.length) = some 2 :=
  one_step_per_command [failCommand, probeCommand] (some [{}]) env0 none
    (fun _ hc => nomatch hc)

/-! ## C2 — repository round-trip -/

theorem loadStep_to_dict (s : StepMetadata)
    (h : s.duration = none → s.start_time = none ∨ s.end_time = none) :
    MetadataRepository.loadStep s.to_dict = s := by
  obtain ⟨nm, ir, orr, dur, st, et, ps⟩ := s
  cases dur with
  | some d => rfl
  | none =>
    rcases h rfl with h1 | h1
    · simp only at h1
      subst h1
      cases et <;> rfl
    · simp only at h1
      subst h1
      cases st <;> rfl

theorem add_step_of_ne_nil (p : PipelineMetadata) (s : StepMetadata)
    (hp : p.steps ≠ []) :
    p.add_step s = { p with
      steps := p.steps ++ [s]
      output_rows := some s.output_rows } := by
  simp only [PipelineMetadata.add_step]
  rw [if_neg]
  simp [hp]

theorem add_step_of_nil (p : PipelineMetadata) (s : StepMetadata)
    (hp : p.steps = []) :
    p.add_step s = { p with
      steps := [s]
      input_rows := some s.input_rows
      output_rows := some s.output_rows } := by
  simp only [PipelineMetadata.add_step]
  rw [hp]
  rfl

theorem foldl_add_step_append (steps : List StepMetadata) :
    ∀ (p : PipelineMetadata), p.steps ≠ [] →
    steps.foldl PipelineMetadata.add_step p =
      { p with
        steps := p.steps ++ steps
        output_rows := match steps.getLast? with
          | some t => some t.output_rows
          | none => p.output_rows } := by
  induction steps with
  | nil => intro p hp; simp
  | cons s rest ih =>
    intro p hp
    rw [List.foldl_cons, add_step_of_ne_nil p s hp, ih _ (by simp)]
    cases rest with
    | nil => simp
    | cons t ts =>
      rcases hg : (t :: ts).getLast? with _ | g
      · rw [List.getLast?_eq_none_iff] at hg
        cases hg
      · simp [List.getLast?_cons_cons, hg]

theorem foldl_add_step_spec (steps : List StepMetadata) (p : PipelineMetadata)
    (hp : p.steps = []) :
    steps.foldl PipelineMetadata.add_step p =
      { p with
        steps := steps
        input_rows := match steps.head? with
          | some s => some s.input_rows
          | none => p.input_rows
        output_rows := match steps.getLast? with
          | some t => some t.output_rows
          | none => p.output_rows } := by
  cases steps with
  | nil =>
    simp only [List.foldl_nil, List.head?_nil, List.getLast?_nil]
    rw [← hp]
  | cons s rest =>
    rw [List.foldl_cons, add_step_of_nil p s hp,
      foldl_add_step_append rest _ (by simp)]
    cases rest with
    | nil => simp
    | cons t ts =>
      rcases hg : (t :: ts).getLast? with _ | g
      · rw [List.getLast?_eq_none_iff] at hg
        cases hg
      · simp [List.getLast?_cons_cons, hg]

/-- C2 counterexample: a concrete RunRecord whose `context_files` map is
populated and whose recorded `input_rows` differs from its first step's
input count; after `save` then `load`, `context_files` comes back `None` and
`input_rows` comes back recomputed from the steps — the round-trip is not
the identity. -/
theorem repository_roundtrip_cex :
    (MetadataRepository.load (MetadataRepository.save
        ⟨"pipe", 0, 1000000, "run-1", [⟨"LoadCommand", 7, 7, some 2, none, none, []⟩],
          none, some [("categories", "cat.json")], some 3, some 9⟩).2).context_files =
      none ∧
    (⟨"pipe", 0, 1000000, "run-1", [⟨"LoadCommand", 7, 7, some 2, none, none, []⟩],
        none, some [("categories", "cat.json")], some 3, some 9⟩ :
        PipelineMetadata).context_files = some [("categories", "cat.json")] ∧
    (MetadataRepository.load (MetadataRepository.save
        ⟨"pipe", 0, 1000000, "run-1", [⟨"LoadCommand", 7, 7, some 2, none, none, []⟩],
          none, some [("categories", "cat.json")], some 3, some 9⟩).2).input_rows =
      some 7 ∧
    (⟨"pipe", 0, 1000000, "run-1", [⟨"LoadCommand", 7, 7, some 2, none, none, []⟩],
        none, some [("categories", "cat.json")], some 3, some 9⟩ :
        PipelineMetadata).input_rows = some 3 := by
  refine ⟨?_, ?_, ?_, ?_⟩ <;> decide

/-- C2 amended: `load(save(r))` reproduces every field of the RunRecord —
run id, pipeline name, timestamps (lossless to microsecond precision),
row counts, the quality map and every nested step in order — except
`context_files`, which always loads as `None`; the row counts survive only
because the loader recomputes them from the steps, so the record must
satisfy the recorder's invariant that `input_rows`/`output_rows` agree with
the first/last step whenever steps exist, and each step's stored `duration`
must be present whenever both of its timestamps are (as the step
constructor guarantees). -/
theorem repository_roundtrip (r : PipelineMetadata)
    (hdur : ∀ s ∈ r.steps, s.duration = none → s.start_time = none ∨ s.end_time = none)
    (hin : r.steps ≠ [] → r.input_rows = r.steps.head?.map (fun s => s.input_rows))
    (hout : r.steps ≠ [] → r.output_rows = r.steps.getLast?.map (fun s => s.output_rows)) :
    MetadataRepository.load (MetadataRepository.save r).2 =
      { r with context_files := none } := by
  unfold MetadataRepository.save MetadataRepository.load
  have hsteps : (r.to_dict).steps.foldl
      (fun acc sd => acc.add_step (MetadataRepository.loadStep sd))
      { PipelineMetadata.init (r.to_dict).pipeline_name (r.to_dict).start_time
          (r.to_dict).end_time (r.to_dict).quality_index none (r.to_dict).run_id with
        input_rows := (r.to_dict).input_rows
        output_rows := (r.to_dict).output_rows } =
      r.steps.foldl PipelineMetadata.add_step
      { PipelineMetadata.init (r.to_dict).pipeline_name (r.to_dict).start_time
          (r.to_dict).end_time (r.to_dict).quality_index none (r.to_dict).run_id with
        input_rows := (r.to_dict).input_rows
        output_rows := (r.to_dict).output_rows } := by
    have hmap : (r.to_dict).steps.map MetadataRepository.loadStep = r.steps := by
      show (r.steps.map StepMetadata.to_dict).map MetadataRepository.loadStep = r.steps
      rw [List.map_map]
      have hcongr : ∀ s ∈ r.steps,
          (MetadataRepository.loadStep ∘ StepMetadata.to_dict) s = id s := by
        intro s hs
        exact loadStep_to_dict s (hdur s hs)
      rw [List.map_congr_left hcongr, List.map_id]
    rw [← List.foldl_map MetadataRepository.loadStep PipelineMetadata.add_step, hmap]
  rw [hsteps, foldl_add_step_spec _ _ rfl]
  cases hs : r.steps with
  | nil => rfl
  | cons s rest =>
    have h1 : r.input_rows = some s.input_rows := by
      rw [hin (by rw [hs]; simp), hs]
      rfl
    rcases hg : (s :: rest).getLast? with _ | g
    · rw [List.getLast?_eq_none_iff] at hg
      cases hg
    · have h2 : r.output_rows = some g.output_rows := by
        rw [hout (by rw [hs]; simp), hs, hg]
        rfl
      rw [h1, h2]
      rfl

/-- C2 witness: the amended round-trip at a concrete well-formed
RunRecord. -/
theorem repository_roundtrip_witness :
    MetadataRepository.load (MetadataRepository.save
        ⟨"pipe", 0, 2500000, "run-rt",
          [⟨"LoadCommand", 4, 6, some 1, none, none, [("glob", "*.csv")]⟩],
          some (.vnum 1), some [("categories", "cat.json")], some 4, some 6⟩).2 =
      { (⟨"pipe", 0, 2500000, "run-rt",
          [⟨"LoadCommand", 4, 6, some 1, none, none, [("glob", "*.csv")]⟩],
          some (.vnum 1), some [("categories", "cat.json")], some 4, some 6⟩ :
          PipelineMetadata) with context_files := none } :=
  repository_roundtrip
    ⟨"pipe", 0, 2500000, "run-rt",
      [⟨"LoadCommand", 4, 6, some 1, none, none, [("glob", "*.csv")]⟩],
      some (.vnum 1), some [("categories", "cat.json")], some 4, some 6⟩
    (by decide) (by decide) (by decide)

/-! ## C7 — monotonicity of the completeness dimension -/

/-- The three required fields of the completeness dimension
(`CategoryAnnotation`, `SubCategoryAnnotation`, `Confidence`). -/
inductive ReqField where
  | cat
  | subcat
  | conf
  deriving DecidableEq

/-- Read one required field of a row. -/
def Row.getReq (r : Row) : ReqField → Option Value
  | .cat => r.category
  | .subcat => r.subcategory
  | .conf => r.confidence

/-- Fill one required field of a row with a value (all else unchanged). -/
def Row.setReq (r : Row) : ReqField → Value → Row
  | .cat, v => { r with category := some v }
  | .subcat, v => { r with subcategory := some v }
  | .conf, v => { r with confidence := some v }

theorem rowScore_le_setReq (r : Row) (f : ReqField) (v : Value)
    (hmiss : fieldPresent (r.getReq f) = false)
    (hfill : fieldPresent (some v) = true) :
    CompletenessCalculator.rowScore r ≤ CompletenessCalculator.rowScore (r.setReq f v) := by
  unfold CompletenessCalculator.rowScore
  have h3 : (0 : Rat) < 3 := by norm_num
  rw [div_le_div_iff_of_pos_right h3, Nat.cast_le]
  cases f <;>
    simp only [Row.getReq] at hmiss <;>
    simp [Row.setReq, hmiss, hfill]

theorem sum_le_sum_set (l : List Rat) :
    ∀ (i : Nat) (x y : Rat), l[i]? = some x → x ≤ y → l.sum ≤ (l.set i y).sum := by
  induction l with
  | nil => intro i x y h; cases h
  | cons a rest ih =>
    intro i x y h hxy
    cases i with
    | zero =>
      simp only [List.getElem?_cons_zero, Option.some.injEq] at h
      subst h
      simp only [List.set_cons_zero, List.sum_cons]
      exact add_le_add_right hxy _
    | succ n =>
      simp only [List.getElem?_cons_succ] at h
      simp only [List.set_cons_succ, List.sum_cons]
      exact add_le_add_left (ih n x y h hxy) a

theorem completeness_calculate_of_ne_nil (df : List Row) (h : df ≠ []) :
    CompletenessCalculator.calculate df =
      (df.map CompletenessCalculator.rowScore).sum / (df.length : Rat) := by
  simp only [CompletenessCalculator.calculate]
  rw [if_neg h, if_neg (by simpa using h), List.length_map]

/-- C7: the completeness dimension is monotone — filling in one previously
missing/blank required field of one row (all else unchanged) never decreases
the score — and the completeness of an empty dataset is `0.0`. -/
theorem completeness_monotone :
    (∀ (df : List Row) (i : Nat) (r : Row) (f : ReqField) (v : Value),
      df[i]? = some r →
      fieldPresent (r.getReq f) = false →
      fieldPresent (some v) = true →
      CompletenessCalculator.calculate df ≤
        CompletenessCalculator.calculate (df.set i (r.setReq f v))) ∧
    CompletenessCalculator.calculate [] = 0 := by
  refine ⟨?_, rfl⟩
  intro df i r f v hget hmiss hfill
  have hne : df ≠ [] := by rintro rfl; cases hget
  have hne2 : df.set i (r.setReq f v) ≠ [] := by
    intro h
    apply hne
    have := congrArg List.length h
    simpa using this
  rw [completeness_calculate_of_ne_nil df hne,
    completeness_calculate_of_ne_nil _ hne2, List.length_set]
  have hlen : (0 : Rat) < (df.length : Rat) := by
    exact_mod_cast List.length_pos.mpr hne
  rw [div_le_div_iff_of_pos_right hlen, List.map_set]
  refine sum_le_sum_set _ i _ _ ?_ (rowScore_le_setReq r f v hmiss hfill)
  rw [List.getElem?_map, hget]
  rfl

/-- C7 witness: filling the missing category of a one-row dataset does not
decrease the completeness score. -/
theorem completeness_monotone_witness :
    CompletenessCalculator.calculate
        [⟨none, some (.vstr "Sub"), some (.vstr "0.9"), none⟩] ≤
      CompletenessCalculator.calculate
        ([⟨none, some (.vstr "Sub"), some (.vstr "0.9"), none⟩].set 0
          ((⟨none, some (.vstr "Sub"), some (.vstr "0.9"), none⟩ : Row).setReq
            .cat (.vstr "Food"))) :=
  completeness_monotone.1 _ 0 _ .cat (.vstr "Food") (by decide) (by decide) (by decide)

/-! ## C6 — the simple quality strategy -/

theorem cellIsNA_fieldPresent (c : Option Value) (h : cellIsNA c = true) :
    fieldPresent c = false := by
  cases c with
  | none => rfl
  | some v => cases v <;> simp_all [cellIsNA, Value.isNA, fieldPresent]

theorem fieldPresent_iff_strip (c : Option Value) (h : cellIsNA c = false) :
    fieldPresent c = true ↔ pyStrip (cellStr c) ≠ "" := by
  cases c with
  | none => simp [cellIsNA] at h
  | some v =>
    cases v with
    | na => simp [cellIsNA, Value.isNA] at h
    | vstr s => simp [fieldPresent, Value.isNA, cellStr, Value.pyStr]
    | vnum q => simp [fieldPresent, Value.isNA, cellStr, Value.pyStr]

theorem simple_rowScore_spec (r : Row) (s : Rat)
    (h : SimpleQualityCalculator.rowScore? r = some s) :
    specSimpleRowScore r = s := by
  unfold SimpleQualityCalculator.rowScore? at h
  unfold specSimpleRowScore
  by_cases h1 : (cellIsNA r.category || cellIsNA r.subcategory || cellIsNA r.confidence) = true
  · rw [if_pos h1] at h
    injection h with h
    subst h
    rw [if_neg]
    simp only [Bool.or_eq_true] at h1
    intro hcond
    simp only [Bool.and_eq_true, Bool.not_eq_true'] at hcond
    rcases h1 with (hna | hna) | hna
    · rw [cellIsNA_fieldPresent _ hna] at hcond
      exact Bool.false_ne_true hcond.1.1
    · rw [cellIsNA_fieldPresent _ hna] at hcond
      exact Bool.false_ne_true hcond.1.2
    · rw [hna] at hcond
      exact absurd hcond.2 (by simp)
  · rw [if_neg h1] at h
    simp only [Bool.or_eq_true, not_or, Bool.not_eq_true] at h1
    obtain ⟨⟨hna1, hna2⟩, hna3⟩ := h1
    simp only [] at h
    by_cases h2 : pyStrip (cellStr r.category) = "" ∨ pyStrip (cellStr r.subcategory) = ""
    · rw [if_pos h2] at h
      injection h with h
      subst h
      rw [if_neg]
      intro hcond
      simp only [Bool.and_eq_true] at hcond
      rcases h2 with h2 | h2
      · exact (fieldPresent_iff_strip _ hna1).mp hcond.1.1 h2
      · exact (fieldPresent_iff_strip _ hna2).mp hcond.1.2 h2
    · rw [if_neg h2] at h
      push_neg at h2
      rw [if_pos]
      · rcases hf : (r.confidence.getD .na).pyFloat? with _ | c
        · rw [hf] at h
          cases h
        · rw [hf] at h
          replace h : (if c = 0 then some (0 : Rat) else some c) = some s := h
          show (if c = 0 then (0 : Rat) else c) = s
          by_cases hc : c = 0
          · rw [if_pos hc] at h
            injection h with h
            subst h
            rw [if_pos hc]
          · rw [if_neg hc] at h
            injection h with h
            subst h
            rw [if_neg hc]
      · simp only [Bool.and_eq_true, Bool.not_eq_true']
        exact ⟨⟨(fieldPresent_iff_strip _ hna1).mpr h2.1,
          (fieldPresent_iff_strip _ hna2).mpr h2.2⟩, hna3⟩

theorem simple_rowScores_spec (df : List Row) :
    ∀ ss, SimpleQualityCalculator.rowScores df = some ss →
      ss = df.map specSimpleRowScore := by
  induction df with
  | nil =>
    intro ss h
    cases h
    rfl
  | cons r rest ih =>
    intro ss h
    unfold SimpleQualityCalculator.rowScores at h
    rcases hr : SimpleQualityCalculator.rowScore? r with _ | s
    · rw [hr] at h
      cases h
    · rw [hr] at h
      rcases hrest : SimpleQualityCalculator.rowScores rest with _ | ss2
      · rw [hrest] at h
        cases h
      · rw [hrest] at h
        injection h with h
        subst h
        rw [List.map_cons, ← ih ss2 hrest, simple_rowScore_spec r s hr]

/-- The three-row scenario frame of the claim: all fields populated,
confidences `0.95`, `0.92`, `0.88`. -/
def dfC6a : List Row :=
  [⟨some (.vstr "Food"), some (.vstr "Coffee"), some (.vnum (19/20)), none⟩,
   ⟨some (.vstr "Transport"), some (.vstr "Bus"), some (.vnum (23/25)), none⟩,
   ⟨some (.vstr "Shopping"), some (.vstr "Gift"), some (.vnum (22/25)), none⟩]

/-- The same frame with the second row's category missing. -/
def dfC6b : List Row :=
  [⟨some (.vstr "Food"), some (.vstr "Coffee"), some (.vnum (19/20)), none⟩,
   ⟨some .na, some (.vstr "Bus"), some (.vnum (23/25)), none⟩,
   ⟨some (.vstr "Shopping"), some (.vstr "Gift"), some (.vnum (22/25)), none⟩]

/-- C6: whenever the simple strategy completes (an uncaught `float()`
error aborts it instead), every row is scored as its raw confidence when
category, subcategory and confidence are present (non-blank) and the
confidence is non-zero, `0.0` otherwise, and the overall quality index (and
the confidence field) is the unweighted mean of these row scores; in
particular the claim's two three-row scenarios evaluate to `11/12 ≈ 0.9167`
and `61/100 = 0.6100`. -/
theorem simple_quality_spec :
    (∀ (df : List Row) (m : QualityMetrics),
      SimpleQualityCalculator.calculate df = some m →
      m = ⟨0, specSimpleIndex df, 0, specSimpleIndex df⟩) ∧
    SimpleQualityCalculator.calculate dfC6a = some ⟨0, 11/12, 0, 11/12⟩ ∧
    SimpleQualityCalculator.calculate dfC6b = some ⟨0, 61/100, 0, 61/100⟩ := by
  refine ⟨?_, ?_, ?_⟩
  · intro df m h
    unfold SimpleQualityCalculator.calculate at h
    by_cases hdf : df = []
    · rw [if_pos hdf] at h
      injection h with h
      subst h
      rw [hdf]
      rfl
    · rw [if_neg hdf] at h
      rcases hs : SimpleQualityCalculator.rowScores df with _ | ss
      · rw [hs] at h
        cases h
      · rw [hs] at h
        replace h : (if ss = [] then
            some (⟨0, 0, 0, 0⟩ : QualityMetrics)
          else
            some ⟨0, SimpleQualityCalculator.applyWeighting ss, 0,
              SimpleQualityCalculator.applyWeighting ss⟩) = some m := h
        have hss := simple_rowScores_spec df ss hs
        have hne : ss ≠ [] := by
          rw [hss]
          simpa using hdf
        rw [if_neg hne] at h
        injection h with h
        subst h
        unfold SimpleQualityCalculator.applyWeighting
        rw [if_neg hne, hss, List.length_map]
        unfold specSimpleIndex
        rw [if_neg hdf]
  · simp +decide only [SimpleQualityCalculator.calculate, SimpleQualityCalculator.rowScores,
      SimpleQualityCalculator.rowScore?, SimpleQualityCalculator.applyWeighting,
      dfC6a, cellIsNA, cellStr, Value.isNA, Value.pyStr, Value.pyFloat?]
    norm_num
    have hne : ([19/20, 23/25, 22/25] : List Rat) ≠ [] := by simp
    rw [if_neg hne, if_neg hne]
  · simp +decide only [SimpleQualityCalculator.calculate, SimpleQualityCalculator.rowScores,
      SimpleQualityCalculator.rowScore?, SimpleQualityCalculator.applyWeighting,
      dfC6b, cellIsNA, cellStr, Value.isNA, Value.pyStr, Value.pyFloat?]
    norm_num
    have hne : ([19/20, 0, 22/25] : List Rat) ≠ [] := by simp
    rw [if_neg hne, if_neg hne]

/-- C6 witness: the general row-scoring statement applied at the first
scenario frame. -/
theorem simple_quality_spec_witness :
    (⟨0, 11/12, 0, 11/12⟩ : QualityMetrics) =
      ⟨0, specSimpleIndex dfC6a, 0, specSimpleIndex dfC6a⟩ :=
  simple_quality_spec.1 dfC6a ⟨0, 11/12, 0, 11/12⟩ simple_quality_spec.2.1

/-! ## C4 — the confidence dimension -/

theorem rowConfidence_eq_specConfValue (r : Row) :
    ConfidenceCalculator.rowConfidence r = (specConfValue? r).getD 0 := by
  unfold ConfidenceCalculator.rowConfidence specConfValue?
  cases hc : r.confidence with
  | none => rfl
  | some v =>
    cases v with
    | na => rfl
    | vstr s => rfl
    | vnum q =>
      show (if q = 0 then (0 : Rat) else max 0 (min 1 q)) =
        ((if 0 < q then some (min 1 q) else none) : Option Rat).getD 0
      by_cases hq : q = 0
      · rw [if_pos hq, if_neg (by rw [hq]; exact lt_irrefl 0)]
        rfl
      · rw [if_neg hq]
        by_cases hpos : 0 < q
        · rw [if_pos hpos]
          exact max_eq_right (le_min (by norm_num) (le_of_lt hpos))
        · rw [if_neg hpos]
          have hq' : q < 0 := lt_of_le_of_ne (not_lt.mp hpos) hq
          rw [min_eq_right (by linarith), max_eq_left (le_of_lt hq')]
          rfl

theorem specConfValue?_pos (r : Row) (c : Rat) (h : specConfValue? r = some c) :
    0 < c := by
  unfold specConfValue? at h
  cases hc : r.confidence with
  | none => rw [hc] at h; cases h
  | some v =>
    rw [hc] at h
    replace h : (if v.isNA = true then none
        else match v.pyFloat? with
          | none => none
          | some q => if 0 < q then some (min 1 q) else none) = some c := h
    by_cases hna : v.isNA
    · rw [if_pos hna] at h; cases h
    · rw [if_neg hna] at h
      cases hf : v.pyFloat? with
      | none => rw [hf] at h; cases h
      | some q =>
        rw [hf] at h
        replace h : (if 0 < q then some (min 1 q) else none) = some c := h
        by_cases hpos : 0 < q
        · rw [if_pos hpos] at h
          injection h with h
          subst h
          exact lt_min (by norm_num) hpos
        · rw [if_neg hpos] at h
          cases h

theorem valid_filter_eq_filterMap (df : List Row) :
    (df.map ConfidenceCalculator.rowConfidence).filter (fun s => 0 < s) =
      df.filterMap specConfValue? := by
  induction df with
  | nil => rfl
  | cons r rest ih =>
    rw [List.map_cons, List.filter_cons, List.filterMap_cons]
    cases hs : specConfValue? r with
    | none =>
      have h0 : ConfidenceCalculator.rowConfidence r = 0 := by
        rw [rowConfidence_eq_specConfValue, hs]
        rfl
      rw [h0]
      simp only [decide_eq_true_eq, lt_irrefl, if_false, ih]
    | some c =>
      have hc : ConfidenceCalculator.rowConfidence r = c := by
        rw [rowConfidence_eq_specConfValue, hs]
        rfl
      have hpos := specConfValue?_pos r c hs
      rw [hc]
      simp only [decide_eq_true_eq, hpos, if_true, ih]

theorem weighting_foldl (l : List Rat) :
    ∀ (a b : Rat),
    l.foldl (fun p s => (p.1 + s * ConfidenceCalculator.weightOf s,
      p.2 + ConfidenceCalculator.weightOf s)) (a, b) =
      (a + (l.map fun s => s * ConfidenceCalculator.weightOf s).sum,
       b + (l.map ConfidenceCalculator.weightOf).sum) := by
  induction l with
  | nil => intro a b; simp
  | cons s rest ih =>
    intro a b
    rw [List.foldl_cons, ih, List.map_cons, List.map_cons, List.sum_cons,
      List.sum_cons]
    simp [add_assoc]

theorem one_le_weightOf (s : Rat) : 1 ≤ ConfidenceCalculator.weightOf s := by
  unfold ConfidenceCalculator.weightOf
  split
  · norm_num
  · split <;> norm_num

theorem applyWeighting_eq (l : List Rat) (hne : l ≠ []) :
    ConfidenceCalculator.applyWeighting l =
      (l.map fun s => s * ConfidenceCalculator.weightOf s).sum /
        (l.map ConfidenceCalculator.weightOf).sum := by
  simp only [ConfidenceCalculator.applyWeighting]
  rw [if_neg hne, weighting_foldl l 0 0]
  have hpos : 0 < (l.map ConfidenceCalculator.weightOf).sum := by
    apply List.sum_pos
    · intro x hx
      obtain ⟨s, _, rfl⟩ := List.mem_map.mp hx
      exact lt_of_lt_of_le one_pos (one_le_weightOf s)
    · simpa using hne
  rw [zero_add, zero_add] at *
  rw [if_pos hpos]

theorem confidence_calculate_eq (df : List Row) :
    ConfidenceCalculator.calculate df = specConfidenceAmended df := by
  simp only [ConfidenceCalculator.calculate, specConfidenceAmended]
  rw [valid_filter_eq_filterMap]
  by_cases hdf : df = []
  · subst hdf
    simp
  · rw [if_neg hdf]
    by_cases hc : df.filterMap specConfValue? = []
    · rw [if_pos hc, if_pos hc]
    · rw [if_neg hc, if_neg hc, applyWeighting_eq _ hc]

theorem specConfValue?_095 (r : Row) (h : r.confidence = some (.vnum (19/20))) :
    specConfValue? r = some (19/20) := by
  unfold specConfValue?
  rw [h]
  show (if (0 : Rat) < 19/20 then some (min 1 (19/20 : Rat)) else none) = some (19/20)
  rw [if_pos (by norm_num), min_eq_right (by norm_num)]

theorem filterMap_095 : ∀ df : List Row,
    (∀ r ∈ df, r.confidence = some (.vnum (19/20))) →
    df.filterMap specConfValue? = List.replicate df.length (19/20 : Rat) := by
  intro df
  induction df with
  | nil => intro _; rfl
  | cons r rest ih =>
    intro hall
    rw [List.filterMap_cons, specConfValue?_095 r (hall r (by simp)),
      List.length_cons, List.replicate_succ,
      ih (fun x hx => hall x (List.mem_cons_of_mem _ hx))]

theorem confidence_all095 (df : List Row) (hne : df ≠ [])
    (hall : ∀ r ∈ df, r.confidence = some (.vnum (19/20))) :
    ConfidenceCalculator.calculate df = 19/20 := by
  rw [confidence_calculate_eq]
  have hfm := filterMap_095 df hall
  simp only [specConfidenceAmended]
  rw [hfm]
  have hlen : df.length ≠ 0 := by
    simpa [List.length_eq_zero] using hne
  rw [if_neg (by simp [hlen])]
  rw [List.map_replicate, List.map_replicate, List.sum_replicate, List.sum_replicate]
  have hw : ConfidenceCalculator.weightOf (19/20) = 1 := by
    unfold ConfidenceCalculator.weightOf
    rw [if_neg (by norm_num), if_neg (by norm_num)]
  rw [hw, mul_one, nsmul_eq_mul, nsmul_eq_mul, mul_one]
  have hn : (df.length : Rat) ≠ 0 := Nat.cast_ne_zero.mpr hlen
  exact mul_div_cancel_left₀ _ hn

/-- C4 counterexample: a dataset whose single row has confidence `2.0`.
The claim's formula includes the row with its raw value and weight `1`,
giving `2.0`; the source clamps the score into `[0, 1]` and yields `1.0`. -/
theorem confidence_weighted_cex :
    ConfidenceCalculator.calculate [⟨none, none, some (.vnum 2), none⟩] = 1 ∧
    specConfidenceClaim [⟨none, none, some (.vnum 2), none⟩] = 2 := by
  constructor
  · norm_num [ConfidenceCalculator.calculate, ConfidenceCalculator.rowConfidence,
      ConfidenceCalculator.applyWeighting, ConfidenceCalculator.weightOf,
      Value.isNA, Value.pyFloat?, min_def, max_def, List.filter_cons]
  · norm_num [specConfidenceClaim, ConfidenceCalculator.weightOf, Value.isNA,
      Value.pyFloat?, List.filterMap_cons]

/-- C4 amended: the confidence dimension score equals
`Σ(score·weight) / Σ(weight)` over the rows whose confidence is present,
numeric and strictly positive, each score being the confidence clamped into
`[0, 1]` (so rows with missing, zero or negative confidence are excluded
from both sums, and values above `1.0` count as `1.0`), with weight `3`
below `0.70`, `2` up to `0.90` and `1` above; no valid row gives `0.0`, and
a non-empty dataset whose rows all carry confidence `0.95` scores exactly
`0.95`. -/
theorem confidence_weighted_spec :
    (∀ df : List Row, ConfidenceCalculator.calculate df = specConfidenceAmended df) ∧
    (∀ df : List Row, df ≠ [] →
      (∀ r ∈ df, r.confidence = some (.vnum (19/20))) →
      ConfidenceCalculator.calculate df = 19/20) :=
  ⟨confidence_calculate_eq, confidence_all095⟩

/-- C4 witness: the all-`0.95` clause at a concrete two-row dataset. -/
theorem confidence_weighted_spec_witness :
    ConfidenceCalculator.calculate
      [⟨none, none, some (.vnum (19/20)), none⟩,
       ⟨none, none, some (.vnum (19/20)), none⟩] = 19/20 :=
  confidence_weighted_spec.2 _ (by simp)
    (by intro r hr; fin_cases hr <;> rfl)

/-! ## C3 — the consistency dimension -/

theorem foldl_insertKey_mem (l : List String) :
    ∀ (ks : List String) (p : String),
    p ∈ l.foldl insertKey ks ↔ p ∈ ks ∨ p ∈ l := by
  induction l with
  | nil => simp
  | cons a rest ih =>
    intro ks p
    rw [List.foldl_cons, ih]
    unfold insertKey
    by_cases ha : a ∈ ks
    · rw [if_pos ha]
      constructor
      · rintro (h | h)
        · exact Or.inl h
        · exact Or.inr (List.mem_cons_of_mem _ h)
      · rintro (h | h)
        · exact Or.inl h
        · rcases List.mem_cons.mp h with rfl | h
          · exact Or.inl ha
          · exact Or.inr h
    · rw [if_neg ha]
      simp [List.mem_append, List.mem_cons, or_assoc]

theorem foldl_insertKey_nodup (l : List String) :
    ∀ ks : List String, ks.Nodup → (l.foldl insertKey ks).Nodup := by
  induction l with
  | nil => intro ks h; exact h
  | cons a rest ih =>
    intro ks h
    rw [List.foldl_cons]
    apply ih
    unfold insertKey
    by_cases ha : a ∈ ks
    · rw [if_pos ha]
      exact h
    · rw [if_neg ha]
      simp [List.nodup_append, h, ha]

theorem specKeys_nodup (df : List Row) : (specKeys df).Nodup :=
  foldl_insertKey_nodup _ [] List.nodup_nil

theorem mem_specKeys (df : List Row) (p : String) :
    p ∈ specKeys df ↔ p ∈ df.filterMap descKey? := by
  unfold specKeys
  rw [foldl_insertKey_mem]
  simp

theorem specGroup_concat (df : List Row) (r : Row) (p : String) :
    specGroup (df ++ [r]) p =
      specGroup df p ++ (if descKey? r = some p then [r] else []) := by
  unfold specGroup
  rw [List.filter_append]
  congr 1
  by_cases h : descKey? r = some p
  · simp [List.filter_cons, h]
  · simp [List.filter_cons, h]

theorem specKeys_concat (df : List Row) (r : Row) :
    specKeys (df ++ [r]) =
      match descKey? r with
      | none => specKeys df
      | some p => insertKey (specKeys df) p := by
  unfold specKeys
  rw [List.filterMap_append, List.foldl_append]
  cases h : descKey? r with
  | none => simp [List.filterMap_cons, h]
  | some p => simp [List.filterMap_cons, h]

theorem specGroup_eq_nil_of_not_mem (df : List Row) (p : String)
    (h : p ∉ specKeys df) : specGroup df p = [] := by
  rw [specGroup, List.filter_eq_nil_iff]
  intro r hr hkey
  apply h
  rw [mem_specKeys, List.mem_filterMap]
  exact ⟨r, hr, by simpa using hkey⟩

theorem addToGroup_not_mem (ks : List String) (f : String → List Row)
    (p : String) (r : Row) :
    ∀ (_ : p ∉ ks),
    addToGroup (ks.map fun q => (q, f q)) p r =
      (ks.map fun q => (q, f q)) ++ [(p, [r])] := by
  induction ks with
  | nil => intro _; rfl
  | cons a rest ih =>
    intro h
    rw [List.map_cons]
    unfold addToGroup
    rw [if_neg (by rintro rfl; exact h (by simp))]
    rw [ih (fun hh => h (List.mem_cons_of_mem _ hh))]
    rfl

theorem addToGroup_mem (ks : List String) (f : String → List Row)
    (p : String) (r : Row) :
    ∀ (_ : ks.Nodup) (_ : p ∈ ks),
    addToGroup (ks.map fun q => (q, f q)) p r =
      ks.map fun q => (q, f q ++ if q = p then [r] else []) := by
  induction ks with
  | nil => intro _ h; cases h
  | cons a rest ih =>
    intro hnd hmem
    rw [List.map_cons, List.map_cons]
    unfold addToGroup
    by_cases hap : a = p
    · rw [if_pos hap]
      subst hap
      rw [if_pos rfl]
      congr 1
      apply List.map_congr_left
      intro q hq
      rw [if_neg (by rintro rfl; exact (List.nodup_cons.mp hnd).1 hq)]
      simp
    · rw [if_neg hap, if_neg hap]
      rw [ih (List.nodup_cons.mp hnd).2
        (by rcases List.mem_cons.mp hmem with rfl | h
            · exact absurd rfl hap
            · exact h)]
      simp

theorem specKeys_concat_none (df : List Row) (r : Row) (h : descKey? r = none) :
    specKeys (df ++ [r]) = specKeys df := by
  unfold specKeys
  rw [List.filterMap_append, List.foldl_append]
  simp [List.filterMap_cons, h]

theorem specKeys_concat_some (df : List Row) (r : Row) (p : String)
    (h : descKey? r = some p) :
    specKeys (df ++ [r]) = insertKey (specKeys df) p := by
  unfold specKeys
  rw [List.filterMap_append, List.foldl_append]
  simp [List.filterMap_cons, h]

theorem groupRows_eq_specGroups (df : List Row) :
    df.foldl groupStep [] = (specKeys df).map fun p => (p, specGroup df p) := by
  induction df using List.reverseRecOn with
  | nil => rfl
  | append_singleton df r ih =>
    rw [List.foldl_append, List.foldl_cons, List.foldl_nil, ih]
    unfold groupStep
    cases hk : descKey? r with
    | none =>
      show ((specKeys df).map fun p => (p, specGroup df p)) =
        (specKeys (df ++ [r])).map fun p => (p, specGroup (df ++ [r]) p)
      rw [specKeys_concat_none df r hk]
      apply List.map_congr_left
      intro q _
      rw [specGroup_concat df r q, hk,
        if_neg (show ¬ ((none : Option String) = some q) by simp),
        List.append_nil]
    | some p =>
      show addToGroup ((specKeys df).map fun q => (q, specGroup df q)) p r =
        (specKeys (df ++ [r])).map fun q => (q, specGroup (df ++ [r]) q)
      rw [specKeys_concat_some df r p hk]
      unfold insertKey
      by_cases hmem : p ∈ specKeys df
      · rw [if_pos hmem, addToGroup_mem _ _ _ _ (specKeys_nodup df) hmem]
        apply List.map_congr_left
        intro q _
        rw [specGroup_concat df r q, hk]
        by_cases hqp : q = p
        · subst hqp
          simp
        · rw [if_neg hqp,
            if_neg (show ¬ (some p = some q) from
              fun hh => hqp (Option.some.inj hh).symm),
            List.append_nil]
      · rw [if_neg hmem, addToGroup_not_mem _ _ _ _ hmem, List.map_append]
        congr 1
        · apply List.map_congr_left
          intro q hq
          rw [specGroup_concat df r q, hk,
            if_neg (show ¬ (some p = some q) from
              fun hh => hmem ((Option.some.inj hh) ▸ hq)),
            List.append_nil]
        · rw [List.map_singleton]
          rw [specGroup_concat df r p, hk, if_pos rfl,
            specGroup_eq_nil_of_not_mem df p hmem, List.nil_append]

/-- C3 amended: the consistency score equals (number of consistent groups)
divided by (number of groups) where only the description-prefix groups with
at least two rows count — in numerator and denominator alike; singleton
groups are excluded entirely, rows with a blank description are never
grouped, and a dataset with no group of two or more rows (in particular an
empty dataset) scores `0.0`.  A group of size at least two is consistent
when its rows with both category and subcategory non-blank contribute
exactly one distinct (category, subcategory) pair. -/
theorem consistency_score_spec (df : List Row) :
    ConsistencyCalculator.calculate df = specConsistencyAmended df := by
  have hgroups : ConsistencyCalculator.groups df =
      ((specKeys df).filter fun p => 1 < (specGroup df p).length).map
        fun p => (p, specGroup df p) := by
    unfold ConsistencyCalculator.groups
    rw [groupRows_eq_specGroups, List.filter_map]
    rfl
  simp only [ConsistencyCalculator.calculate, specConsistencyAmended]
  rw [hgroups]
  by_cases hdf : df = []
  · subst hdf
    rfl
  · rw [if_neg hdf]
    by_cases hbig : ((specKeys df).filter fun p => 1 < (specGroup df p).length) = []
    · rw [hbig]
      simp
    · have hmapne : (((specKeys df).filter fun p => 1 < (specGroup df p).length).map
          fun p => (p, specGroup df p)) ≠ [] := by
        simpa using hbig
      rw [if_neg hmapne, if_neg hbig, List.countP_map, List.length_map,
        if_pos (by exact_mod_cast List.length_pos.mpr hbig)]
      rfl

/-- The one-row frame of the C3 counterexample: populated description,
category and subcategory. -/
def dfC3 : List Row :=
  [⟨some (.vstr "Food"), some (.vstr "Coffee"), none,
    some (.vstr "AMAZON MARKETPLACE 123")⟩]

/-- C3 counterexample: on `dfC3` the claim counts the singleton group as
trivially consistent in numerator and denominator (score `1.0`); the source
drops every group of size one before scoring and returns `0.0`. -/
theorem consistency_score_cex :
    ConsistencyCalculator.calculate dfC3 = 0 ∧
    specConsistencyClaim dfC3 = 1 := by
  constructor
  · decide
  · have hk : specKeys dfC3 = ["AMAZON MARKE"] := by decide
    have hc : (["AMAZON MARKE"].countP fun p =>
        ConsistencyCalculator.isGroupConsistent (specGroup dfC3 p)) = 1 := by decide
    simp only [specConsistencyClaim]
    rw [hk, if_neg (show ¬ (["AMAZON MARKE"] = ([] : List String)) by simp), hc]
    norm_num
